import Mathlib

/-!
Shallow embedding of the trading-dashboard core services
(`dashboard/services/metrics_calculator.py` and
`dashboard/services/trade_processor.py`).

Conventions of the embedding:
* timestamps are integers (seconds since an epoch whose day 0 is a Thursday,
  as in the Unix epoch), so one calendar day is 86400 seconds and pandas'
  `dt.dayofweek` (Monday = 0) is `(t / 86400 + 3) % 7` with floor division;
* monetary float values are rationals (all operations used on them are exact
  field operations); values that failed currency parsing (`errors='coerce'`)
  are `none` in the loader's rows;
* pandas DataFrames are lists of records, pandas Series are lists of
  rationals; the CSV reading / timestamp parsing steps are I/O and are
  modelled away: the loader functions start from already-parsed rows;
* the statistics dictionary is a structure; the `Sharpe Ratio` entry of the
  source involves a square root of a variance and is not exactly
  representable in rational arithmetic, so that single entry is not carried
  in the structure (no claim refers to it).
-/

/-- A trade row as consumed by the metrics calculator: entry and exit
timestamps, the profit value, the bar count and the instrument tag. -/
structure MRow where
  entryTime : Int
  exitTime : Int
  profit : ℚ
  bars : ℚ
  instrument : String
  deriving Repr, DecidableEq

/-- Mean of a list of rationals (`Series.mean`); callers guard emptiness. -/
def listMean (l : List ℚ) : ℚ := l.sum / l.length

/-- Maximum of a nonempty list of rationals (`Series.max`); 0 on `[]`. -/
def listMaxQ : List ℚ → ℚ
  | [] => 0
  | x :: xs => xs.foldl max x

/-- Minimum of a nonempty list of rationals (`Series.min`); 0 on `[]`. -/
def listMinQ : List ℚ → ℚ
  | [] => 0
  | x :: xs => xs.foldl min x

/-- Maximum of a nonempty list of integers (`max(...)` in Python); 0 on `[]`. -/
def listMaxI : List Int → Int
  | [] => 0
  | x :: xs => xs.foldl max x

/-- Minimum of a nonempty list of integers (`min(...)` in Python); 0 on `[]`. -/
def listMinI : List Int → Int
  | [] => 0
  | x :: xs => xs.foldl min x

/-- The Boolean test of the loop of `calculate_max_consecutive`:
`(direction == 1 and profit > 0) or (direction == -1 and profit < 0)`. -/
def matchDir (direction : Int) (p : ℚ) : Bool :=
  (direction == 1 && decide (0 < p)) || (direction == -1 && decide (p < 0))

/-- The loop body of `calculate_max_consecutive`: the accumulator carries
`(max_consec, current_consec)` and is updated exactly as in the source. -/
def calcConsecAux (direction : Int) (acc : Nat × Nat) : List ℚ → Nat × Nat
  | [] => acc
  | p :: ps =>
    if matchDir direction p then
      calcConsecAux direction (max acc.1 (acc.2 + 1), acc.2 + 1) ps
    else
      calcConsecAux direction (acc.1, 0) ps

/-- `calculate_max_consecutive(profits, direction)`: maximum consecutive
winners (`direction = 1`) or losers (`direction = -1`). -/
def calculate_max_consecutive (profits : List ℚ) (direction : Int) : Nat :=
  if profits.length = 0 then 0
  else (calcConsecAux direction (0, 0) profits).1

/-- Length of the maximal matching prefix of a profit sequence. -/
def prefRun (direction : Int) : List ℚ → Nat
  | [] => 0
  | p :: ps => if matchDir direction p then prefRun direction ps + 1 else 0

/-- Length of the longest contiguous matching block of a profit sequence. -/
def maxRun (direction : Int) : List ℚ → Nat
  | [] => 0
  | p :: ps =>
    if matchDir direction p then max (prefRun direction ps + 1) (maxRun direction ps)
    else maxRun direction ps

/-- Cumulative sums with a running accumulator (`Series.cumsum`). -/
def cumsumFrom (acc : ℚ) : List ℚ → List ℚ
  | [] => []
  | p :: ps => (acc + p) :: cumsumFrom (acc + p) ps

/-- `Series.cumsum`: the equity curve of a profit sequence. -/
def cumsum (l : List ℚ) : List ℚ := cumsumFrom 0 l

/-- Running maxima continuing from a seed (`expanding().max()` tail). -/
def runMaxFrom (m : ℚ) : List ℚ → List ℚ
  | [] => []
  | x :: xs => max m x :: runMaxFrom (max m x) xs

/-- `Series.expanding().max()`: element `i` is the maximum of the first
`i + 1` elements. -/
def runningMax : List ℚ → List ℚ
  | [] => []
  | x :: xs => x :: runMaxFrom x xs

/-- The drawdown series: `equity - running_max` pointwise. -/
def drawdownOf (equity : List ℚ) : List ℚ :=
  List.zipWith (fun a b => a - b) equity (runningMax equity)

/-- The profit-factor expression of the source before display:
`abs(gp / gl) if gl != 0 else float('inf') if gp > 0 else 0`, with `none`
standing for the float infinity. -/
def profit_factor_raw (gp gl : ℚ) : Option ℚ :=
  if gl ≠ 0 then some |gp / gl| else if 0 < gp then none else some 0

/-- The profit factor as stored in the report:
`profit_factor if profit_factor != float('inf') else 0`. -/
def profit_factor_reported (gp gl : ℚ) : ℚ :=
  match profit_factor_raw gp gl with
  | none => 0
  | some q => q

/-- One calendar day in seconds. -/
def daySecs : Int := 86400

/-- The peak-tracking loop of `calculate_recovery_and_flat_periods`: the
state is the best recovery time so far together with the current peak value
and its time (`none` models `current_peak = -inf` with `peak_time = None`,
which hold together in the source). -/
def recoverAux (acc : Int) (peak : Option (ℚ × Int)) : List (Int × ℚ) → Int
  | [] => acc
  | (t, e) :: rest =>
    match peak with
    | none => recoverAux acc (some (e, t)) rest
    | some (pe, pt) =>
      if pe < e then
        recoverAux (if acc < t - pt then t - pt else acc) (some (e, t)) rest
      else
        recoverAux acc (some (pe, pt)) rest

/-- The interval-merge loop of the source: the current interval is extended
when the next interval starts strictly before its end (`next_start <
curr_end`), otherwise the current interval is closed and a new one starts. -/
def mergeLoop (currStart currEnd : Int) : List (Int × Int) → List (Int × Int)
  | [] => [(currStart, currEnd)]
  | (ns, ne) :: rest =>
    if ns < currEnd then mergeLoop currStart (max currEnd ne) rest
    else (currStart, currEnd) :: mergeLoop ns ne rest

/-- Merge the `(entry_time, exit_time)` intervals as the source does: sort
by start, then run the merge loop. -/
def mergeIntervals (intervals : List (Int × Int)) : List (Int × Int) :=
  match intervals.mergeSort (fun a b => a.1 ≤ b.1) with
  | [] => []
  | (s, e) :: rest => mergeLoop s e rest

/-- Modelled from the spec: the merge loop as the specification phrases it,
extending the current interval whenever the next interval starts before
*or at* its end (`next_start ≤ curr_end`). -/
def mergeLoopSpec (currStart currEnd : Int) : List (Int × Int) → List (Int × Int)
  | [] => [(currStart, currEnd)]
  | (ns, ne) :: rest =>
    if ns ≤ currEnd then mergeLoopSpec currStart (max currEnd ne) rest
    else (currStart, currEnd) :: mergeLoopSpec ns ne rest

/-- Modelled from the spec: interval merging with the specification's
before-or-at extension rule. -/
def mergeIntervalsSpec (intervals : List (Int × Int)) : List (Int × Int) :=
  match intervals.mergeSort (fun a b => a.1 ≤ b.1) with
  | [] => []
  | (s, e) :: rest => mergeLoopSpec s e rest

/-- Gaps between consecutive merged intervals (`merged[i+1][0] - merged[i][1]`). -/
def flatGaps : List (Int × Int) → List Int
  | (_, e1) :: (s2, e2) :: rest => (s2 - e1) :: flatGaps ((s2, e2) :: rest)
  | _ => []

/-- `calculate_recovery_and_flat_periods(df, equity_curve)`, returning
`(max_time_to_recover, max_flat_period, avg_flat_period, pct_time_in_market)`
with durations in seconds. -/
def calculate_recovery_and_flat_periods (df : List MRow) (equity_curve : List ℚ) :
    Int × Int × ℚ × ℚ :=
  if df.length = 0 ∨ equity_curve.length = 0 then (0, 0, 0, 0)
  else
    let max_time_to_recover :=
      recoverAux 0 none (List.zip (df.map (·.exitTime)) equity_curve)
    let merged := mergeIntervals (df.map (fun t => (t.entryTime, t.exitTime)))
    let flat_periods := flatGaps merged
    let max_flat_period := if flat_periods.length = 0 then 0 else listMaxI flat_periods
    let avg_flat_period : ℚ :=
      if flat_periods.length = 0 then 0
      else ((flat_periods.map (fun g => (g : ℚ))).sum) / flat_periods.length
    let unique_trading_days := ((df.map (fun t => Int.fdiv t.entryTime daySecs)).dedup).length
    let start_date := listMinI (df.map (·.entryTime))
    let end_date := listMaxI (df.map (·.exitTime))
    let total_days0 := Int.fdiv (end_date - start_date) daySecs + 1
    let total_days := if total_days0 < 1 then 1 else total_days0
    let pct_time_in_market : ℚ :=
      if 0 < total_days then (unique_trading_days : ℚ) / (total_days : ℚ) * 100 else 0
    (max_time_to_recover, max_flat_period, avg_flat_period, pct_time_in_market)

/-- The statistics dictionary built by `calculate_comprehensive_stats`
(field names follow the Python local variables; the square-root-based
Sharpe entry is not representable exactly and is left out, see the header
comment). -/
structure Stats where
  instrument : String
  total_profit : ℚ
  gross_profit : ℚ
  gross_loss : ℚ
  num_trades : Nat
  num_winners : Nat
  num_losers : Nat
  win_rate : ℚ
  avg_trade : ℚ
  avg_win : ℚ
  avg_loss : ℚ
  win_loss_ratio : ℚ
  profit_factor : ℚ
  largest_win : ℚ
  largest_loss : ℚ
  max_drawdown : ℚ
  max_consec_winners : Nat
  max_consec_losers : Nat
  expectancy : ℚ
  avg_time_in_market : ℚ
  avg_bars : ℚ
  max_time_to_recover : Int
  max_flat_period : Int
  avg_flat_period : ℚ
  pct_time_in_market : ℚ
  deriving Repr, DecidableEq

/-- `calculate_comprehensive_stats(df, instrument_name)`: the stats record
(`none` models the empty dictionary returned for an empty set), the equity
curve and the drawdown series. -/
def calculate_comprehensive_stats (df : List MRow) (instrument_name : String := "") :
    Option Stats × List ℚ × List ℚ :=
  if df.length = 0 then (none, [], [])
  else
    let profits := df.map (·.profit)
    let winners := profits.filter (fun p => decide (0 < p))
    let losers := profits.filter (fun p => decide (p < 0))
    let total_profit := profits.sum
    let gross_profit := if 0 < winners.length then winners.sum else 0
    let gross_loss := if 0 < losers.length then losers.sum else 0
    let num_trades := df.length
    let num_winners := winners.length
    let num_losers := losers.length
    let win_rate : ℚ := if 0 < num_trades then (num_winners : ℚ) / num_trades * 100 else 0
    let avg_trade := listMean profits
    let avg_win := if 0 < num_winners then listMean winners else 0
    let avg_loss := if 0 < num_losers then listMean losers else 0
    let win_loss_ratio := if avg_loss ≠ 0 then |avg_win / avg_loss| else 0
    let equity_curve := cumsum profits
    let drawdown := drawdownOf equity_curve
    let max_drawdown := listMinQ drawdown
    let max_consec_winners := calculate_max_consecutive profits 1
    let max_consec_losers := calculate_max_consecutive profits (-1)
    let expectancy := win_rate / 100 * avg_win - (100 - win_rate) / 100 * |avg_loss|
    let holding_times := df.map (fun t => ((t.exitTime - t.entryTime : Int) : ℚ) / 60)
    let avg_time_in_market := if 0 < holding_times.length then listMean holding_times else 0
    let avg_bars := listMean (df.map (·.bars))
    let rec_flat := calculate_recovery_and_flat_periods df equity_curve
    (some
      { instrument := instrument_name
        total_profit := total_profit
        gross_profit := gross_profit
        gross_loss := gross_loss
        num_trades := num_trades
        num_winners := num_winners
        num_losers := num_losers
        win_rate := win_rate
        avg_trade := avg_trade
        avg_win := avg_win
        avg_loss := avg_loss
        win_loss_ratio := win_loss_ratio
        profit_factor := profit_factor_reported gross_profit gross_loss
        largest_win := listMaxQ profits
        largest_loss := listMinQ profits
        max_drawdown := max_drawdown
        max_consec_winners := max_consec_winners
        max_consec_losers := max_consec_losers
        expectancy := expectancy
        avg_time_in_market := avg_time_in_market
        avg_bars := avg_bars
        max_time_to_recover := rec_flat.1
        max_flat_period := rec_flat.2.1
        avg_flat_period := rec_flat.2.2.1
        pct_time_in_market := rec_flat.2.2.2 },
      equity_curve, drawdown)

/-- Pandas `dt.dayofweek` (Monday = 0) of a timestamp in the embedding:
epoch day 0 is a Thursday, i.e. weekday 3. -/
def dayOfWeekOf (t : Int) : Int := (Int.fdiv t daySecs + 3) % 7

/-- The `day_names` table of the source. -/
def day_names : List String :=
  ["Monday", "Tuesday", "Wednesday", "Thursday", "Friday", "Saturday", "Sunday"]

/-- One row of the day-of-week breakdown dictionary list. -/
structure DayRow where
  dayOfWeek : Int
  dayName : String
  total_profit : ℚ
  num_trades : Nat
  num_winners : Nat
  num_losers : Nat
  win_rate : ℚ
  avg_trade : ℚ
  avg_win : ℚ
  avg_loss : ℚ
  gross_profit : ℚ
  gross_loss : ℚ
  profit_factor : ℚ
  deriving Repr, DecidableEq

/-- One iteration of the `for day_num in range(7)` loop of
`calculate_day_of_week_stats`: `none` models the `continue` on an empty
weekday bucket. -/
def dayRowFor (df : List MRow) (day_num : Nat) : Option DayRow :=
  let day_df := df.filter (fun t => dayOfWeekOf t.entryTime == (day_num : Int))
  if day_df.length = 0 then none
  else
    let profits := day_df.map (·.profit)
    let winners := profits.filter (fun p => decide (0 < p))
    let losers := profits.filter (fun p => decide (p < 0))
    let num_trades := day_df.length
    let num_winners := winners.length
    let num_losers := losers.length
    let gross_profit := if 0 < num_winners then winners.sum else 0
    let gross_loss := if 0 < num_losers then losers.sum else 0
    some
      { dayOfWeek := (day_num : Int)
        dayName := day_names.getD day_num ""
        total_profit := profits.sum
        num_trades := num_trades
        num_winners := num_winners
        num_losers := num_losers
        win_rate := if 0 < num_trades then (num_winners : ℚ) / num_trades * 100 else 0
        avg_trade := listMean profits
        avg_win := if 0 < num_winners then listMean winners else 0
        avg_loss := if 0 < num_losers then listMean losers else 0
        gross_profit := gross_profit
        gross_loss := gross_loss
        profit_factor := profit_factor_reported gross_profit gross_loss }

/-- `calculate_day_of_week_stats(df)`: the per-weekday rows, built in
weekday order with empty buckets skipped, then sorted by `DayOfWeek` as the
final `sort_values` does. -/
def calculate_day_of_week_stats (df : List MRow) : List DayRow :=
  if df.length = 0 then []
  else
    ((List.range 7).filterMap (dayRowFor df)).mergeSort
      (fun a b => a.dayOfWeek ≤ b.dayOfWeek)

/-- Distinct keys of a column in first-appearance order (`Series.unique`). -/
def uniqueKeys (keys : List Int) : List Int := keys.dedup

/-- Group keys as pandas `groupby` produces them: distinct and sorted
ascending. -/
def groupKeys (keys : List Int) : List Int :=
  (keys.dedup).mergeSort (fun a b => a ≤ b)

/-- Rows of a group (`df[df[key] == k]`). -/
def groupRows (key : MRow → Int) (df : List MRow) (k : Int) : List MRow :=
  df.filter (fun t => key t == k)

/-- Distinct instrument names of some rows, sorted (`sorted(unique())`). -/
def sortedInstruments (rows : List MRow) : List String :=
  ((rows.map (·.instrument)).dedup).mergeSort (fun a b => a ≤ b)

/-- Number of distinct instruments of some rows (`Instrument.nunique`). -/
def nuniqueInstruments (rows : List MRow) : Nat :=
  ((rows.map (·.instrument)).dedup).length

/-- The concurrency report shared by the daily and the 5-minute-window
aggregators: group keys are calendar-day numbers in the daily case and
5-minute-window start times in the window case. -/
structure ConcStats where
  max_instruments : Nat
  avg_instruments : ℚ
  min_instruments : Nat
  total_groups : Nat
  max_instrument_groups : List Int
  max_group_instruments : List (Int × List String)
  distribution : List (Nat × Nat)
  group_profit : List (Int × ℚ × Nat)
  profit_by_instruments : List (Nat × ℚ × ℚ × Nat)
  group_details : List (Int × String × ℚ × Nat)
  deriving Repr, DecidableEq

/-- The shared body of `calculate_daily_instrument_stats` and
`calculate_5min_window_stats` on a nonempty frame, parameterized by the
grouping key; `detailKeep` truncates the ranked detail table (`none` in the
daily variant, `some 50` in the window variant) and `maxKeep` truncates the
max-achieving key list (`none` daily, `some 10` windows). -/
def concStatsBy (key : MRow → Int) (df : List MRow)
    (maxKeep : Option Nat) (detailKeep : Option Nat) :
    ConcStats × List (Int × Nat) :=
  let ks := groupKeys (df.map key)
  let group_instruments := ks.map (fun k => (k, nuniqueInstruments (groupRows key df k)))
  let counts : List Nat := group_instruments.map (·.2)
  let max_instruments := counts.foldl max 0
  let avg_instruments : ℚ :=
    if 0 < counts.length then ((counts.map (fun n => (n : ℚ))).sum) / counts.length else 0
  let min_instruments :=
    match counts with
    | [] => 0
    | c :: cs => cs.foldl min c
  let max_groups0 := (group_instruments.filter (fun p => p.2 == max_instruments)).map (·.1)
  let max_groups := match maxKeep with | none => max_groups0 | some n => max_groups0.take n
  let max_group_instruments :=
    max_groups.map (fun k => (k, sortedInstruments (groupRows key df k)))
  let distribution :=
    ((counts.dedup).mergeSort (fun a b => a ≤ b)).map (fun n => (n, counts.count n))
  let group_profit :=
    ks.map (fun k =>
      (k, ((groupRows key df k).map (·.profit)).sum, nuniqueInstruments (groupRows key df k)))
  let ns := ((group_profit.map (·.2.2)).dedup).mergeSort (fun a b => a ≤ b)
  let profit_by_instruments :=
    ns.map (fun n =>
      let sums := (group_profit.filter (fun p => p.2.2 == n)).map (·.2.1)
      (n, listMean sums, sums.sum, sums.length))
  let details0 :=
    ks.map (fun k =>
      let names := sortedInstruments (groupRows key df k)
      (k, String.intercalate ", " names, ((groupRows key df k).map (·.profit)).sum,
        names.length))
  let group_details :=
    match detailKeep with
    | none => details0
    | some n => (details0.mergeSort (fun a b => b.2.2.2 ≤ a.2.2.2)).take n
  ({ max_instruments := max_instruments
     avg_instruments := avg_instruments
     min_instruments := min_instruments
     total_groups := ks.length
     max_instrument_groups := max_groups
     max_group_instruments := max_group_instruments
     distribution := distribution
     group_profit := group_profit
     profit_by_instruments := profit_by_instruments
     group_details := group_details },
   group_instruments)

/-- `calculate_daily_instrument_stats(df)`: groups by the entry calendar
day; `none` models the empty dictionary returned for an empty frame. -/
def calculate_daily_instrument_stats (df : List MRow) :
    Option ConcStats × List (Int × Nat) :=
  if df.length = 0 then (none, [])
  else
    let r := concStatsBy (fun t => Int.fdiv t.entryTime daySecs) df none none
    (some r.1, r.2)

/-- `calculate_5min_window_stats(df)`: groups by the entry time floored to
its 5-minute window (300 seconds), with the display truncations of the
source. -/
def calculate_5min_window_stats (df : List MRow) :
    Option ConcStats × List (Int × Nat) :=
  if df.length = 0 then (none, [])
  else
    let r := concStatsBy (fun t => Int.fdiv t.entryTime 300 * 300) df (some 10) (some 50)
    (some r.1, r.2)

/-- A trade row as handled by the trade processor: parsed timestamps, the
monetary columns after currency cleaning (`none` is a value that failed
`pd.to_numeric(..., errors='coerce')`), the market position text and the
tag columns the combiner adds. -/
structure PTrade where
  entryTime : Int
  exitTime : Int
  profit : Option ℚ
  mae : Option ℚ
  mfe : Option ℚ
  etd : Option ℚ
  commission : Option ℚ
  clearingFee : Option ℚ
  exchangeFee : Option ℚ
  ipFee : Option ℚ
  nfaFee : Option ℚ
  cumNetProfit : Option ℚ
  marketPos : String
  bars : Int
  instrument : String
  contracts : Int
  deriving Repr, DecidableEq

/-- A start or end date argument of `load_and_filter_trades`: either an
already-parsed datetime, or a `dd/mm/yyyy` string carrying the midnight
timestamp that a successful `strptime` yields. -/
inductive DateArg where
  | parsed (t : Int)
  | text (d : Int)
  deriving Repr, DecidableEq

/-- The date value an argument denotes, independent of its form. -/
def DateArg.value : DateArg → Int
  | .parsed t => t
  | .text d => d

/-- The lower filter bound of the source: the start argument as given
(strings parsed, datetimes used as-is). -/
def resolveStart : DateArg → Int
  | .parsed t => t
  | .text d => d

/-- The upper filter bound of the source: one day is added to the end
argument in both the string and the datetime branch. -/
def resolveEnd : DateArg → Int
  | .parsed t => t + daySecs
  | .text d => d + daySecs

/-- `load_and_filter_trades` from the point where the rows are parsed (the
CSV reading, schema checks and timestamp parsing are I/O and precede this):
filter on the entry time, then sort ascending by entry time. Monetary
cleaning is the identity here because rows already carry cleaned values. -/
def load_and_filter_trades (rows : List PTrade) (start_date end_date : DateArg) :
    List PTrade :=
  let s := resolveStart start_date
  let e := resolveEnd end_date
  (rows.filter (fun t => decide (s ≤ t.entryTime) && decide (t.entryTime < e))).mergeSort
    (fun a b => a.entryTime ≤ b.entryTime)

/-- `filter_trades_by_direction(df, direction)`; `hasMarketPos` models
whether the `'Market pos.'` column is present in the frame. -/
def filter_trades_by_direction (hasMarketPos : Bool) (df : List PTrade)
    (direction : String) : List PTrade :=
  if direction = "All" ∨ hasMarketPos = false then df
  else if direction = "Long Only" then df.filter (fun t => t.marketPos == "Long")
  else if direction = "Short Only" then df.filter (fun t => t.marketPos == "Short")
  else df

/-- Scaling of one row by the contract multiplier: exactly the columns in
the source's `monetary_columns` list are multiplied. -/
def scaleRow (multiplier : Int) (t : PTrade) : PTrade :=
  { t with
    profit := t.profit.map (fun v => v * (multiplier : ℚ))
    mae := t.mae.map (fun v => v * (multiplier : ℚ))
    mfe := t.mfe.map (fun v => v * (multiplier : ℚ))
    etd := t.etd.map (fun v => v * (multiplier : ℚ))
    commission := t.commission.map (fun v => v * (multiplier : ℚ))
    clearingFee := t.clearingFee.map (fun v => v * (multiplier : ℚ))
    exchangeFee := t.exchangeFee.map (fun v => v * (multiplier : ℚ))
    ipFee := t.ipFee.map (fun v => v * (multiplier : ℚ))
    nfaFee := t.nfaFee.map (fun v => v * (multiplier : ℚ)) }

/-- `apply_contract_multiplier(df, multiplier)`: the early return for
multiplier 1 or an empty frame hands back the input itself. -/
def apply_contract_multiplier (df : List PTrade) (multiplier : Int) : List PTrade :=
  if multiplier = 1 ∨ df.length = 0 then df
  else df.map (scaleRow multiplier)

/-- Dictionary lookup with a default (`dict.get(name, default)`). -/
def lookupD {α : Type} (m : List (String × α)) (k : String) (dflt : α) : α :=
  match m.find? (fun p => p.1 == k) with
  | some p => p.2
  | none => dflt

/-- The per-instrument entry of `instruments_data`. -/
structure InstrResult where
  trades : List PTrade
  files : String
  contracts : Int
  deriving Repr, DecidableEq

/-- The body of the combiner's `try` block for one selected instrument:
load (an external effect, supplied as `loadFn`, returning the column
presence flag and the rows of `load_and_filter_trades`, or the raised
error), then the direction filter, then the contract multiplier. -/
def processInstrument (loadFn : String → Except String (Bool × List PTrade))
    (instrument_filters : List (String × String))
    (instrument_contracts : List (String × Int))
    (name file : String) : Except String (List PTrade × Int) :=
  match loadFn file with
  | .error e => .error e
  | .ok (hasPos, df0) =>
    let filter_option := lookupD instrument_filters name "All"
    let df1 := filter_trades_by_direction hasPos df0 filter_option
    let contracts := lookupD instrument_contracts name 1
    let df2 := apply_contract_multiplier df1 contracts
    .ok (df2, contracts)

/-- One iteration of the combiner's loop over `instruments.items()`:
unselected instruments and failing pipelines leave the accumulator
untouched; a surviving nonempty result is tagged and appended to both
accumulators. -/
def combineStep (loadFn : String → Except String (Bool × List PTrade))
    (selected_instruments : List String)
    (instrument_filters : List (String × String))
    (instrument_contracts : List (String × Int))
    (acc : List (List PTrade) × List (String × InstrResult))
    (p : String × String) :
    List (List PTrade) × List (String × InstrResult) :=
  if p.1 ∈ selected_instruments then
    match processInstrument loadFn instrument_filters instrument_contracts p.1 p.2 with
    | .error _ => acc
    | .ok (df, contracts) =>
      if 0 < df.length then
        let tagged := df.map (fun t => { t with instrument := p.1, contracts := contracts })
        (acc.1 ++ [tagged], acc.2 ++ [(p.1, ⟨tagged, p.2, contracts⟩)])
      else acc
  else acc

/-- `load_and_process_trades`: run the pipeline per selected instrument,
skipping failures, then concatenate and re-sort the survivors; an empty
batch yields the empty map and the empty frame. The date arguments are
folded into `loadFn`, which models the call to `load_and_filter_trades` on
the instrument's file. -/
def load_and_process_trades (instruments : List (String × String))
    (selected_instruments : List String)
    (instrument_filters : List (String × String))
    (instrument_contracts : List (String × Int))
    (loadFn : String → Except String (Bool × List PTrade)) :
    List (String × InstrResult) × List PTrade :=
  let r := instruments.foldl
    (combineStep loadFn selected_instruments instrument_filters instrument_contracts)
    ([], [])
  if r.1.length = 0 then ([], [])
  else (r.2, (r.1.flatten).mergeSort (fun a b => a.entryTime ≤ b.entryTime))

/-- Folding a function that fixes every element of the list is the identity
on the accumulator. -/
theorem foldl_eq_init {α β : Type} (f : β → α → β) (l : List α) (b : β)
    (h : ∀ b' a, a ∈ l → f b' a = b') : l.foldl f b = b := by
  induction l generalizing b with
  | nil => rfl
  | cons x xs ih =>
    rw [List.foldl_cons, h b x (List.mem_cons_self x xs)]
    exact ih b fun b' a ha => h b' a (List.mem_cons_of_mem x ha)

/-- C8. For the empty trade set, the statistics engine and the three
temporal aggregators return their defined empty reports: the empty
dictionary with empty equity and drawdown series, the empty day-of-week
table, and the empty concurrency reports; none of them raises. -/
theorem empty_input_returns_empty_reports :
    (∀ name : String, calculate_comprehensive_stats [] name = (none, [], [])) ∧
    calculate_day_of_week_stats [] = [] ∧
    calculate_daily_instrument_stats [] = (none, []) ∧
    calculate_5min_window_stats [] = (none, []) :=
  ⟨fun _ => rfl, rfl, rfl, rfl⟩

/-- C10. Any direction mode other than `"Long Only"` and `"Short Only"`
(including `"All"` and unrecognized strings) leaves the trade set
unchanged, and so does any mode whenever the `'Market pos.'` column is
absent. -/
theorem filter_by_direction_fallthrough :
    (∀ (hasPos : Bool) (df : List PTrade) (direction : String),
      direction ≠ "Long Only" → direction ≠ "Short Only" →
      filter_trades_by_direction hasPos df direction = df) ∧
    (∀ (df : List PTrade) (direction : String),
      filter_trades_by_direction false df direction = df) := by
  constructor
  · intro hasPos df direction h1 h2
    simp [filter_trades_by_direction, h1, h2]
  · intro df direction
    simp [filter_trades_by_direction]

/-- Witness for C10: the unrecognized mode `"Both"` with the column present
behaves like `"All"` on a concrete one-row set. -/
theorem filter_by_direction_fallthrough_witness :
    filter_trades_by_direction true
      [⟨0, 1, some 5, none, none, none, none, none, none, none, none, none,
        "Long", 3, "ES", 1⟩] "Both" =
      [⟨0, 1, some 5, none, none, none, none, none, none, none, none, none,
        "Long", 3, "ES", 1⟩] :=
  filter_by_direction_fallthrough.1 true _ "Both" (by decide) (by decide)

/-- C6. The contract multiplier is a true no-op for multiplier 1 and for
the empty set (the input itself is returned), and any other integer
multiplier maps every row through `scaleRow`, which multiplies exactly
`Profit, MAE, MFE, ETD, Commission` and the four fee columns and leaves
every other column of the row untouched. -/
theorem apply_contract_multiplier_behaviour :
    (∀ df : List PTrade, apply_contract_multiplier df 1 = df) ∧
    (∀ m : Int, apply_contract_multiplier [] m = []) ∧
    (∀ (df : List PTrade) (m : Int), m ≠ 1 →
      apply_contract_multiplier df m = df.map (scaleRow m)) ∧
    (∀ (m : Int) (t : PTrade),
      (scaleRow m t).profit = t.profit.map (fun v => v * (m : ℚ)) ∧
      (scaleRow m t).mae = t.mae.map (fun v => v * (m : ℚ)) ∧
      (scaleRow m t).mfe = t.mfe.map (fun v => v * (m : ℚ)) ∧
      (scaleRow m t).etd = t.etd.map (fun v => v * (m : ℚ)) ∧
      (scaleRow m t).commission = t.commission.map (fun v => v * (m : ℚ)) ∧
      (scaleRow m t).clearingFee = t.clearingFee.map (fun v => v * (m : ℚ)) ∧
      (scaleRow m t).exchangeFee = t.exchangeFee.map (fun v => v * (m : ℚ)) ∧
      (scaleRow m t).ipFee = t.ipFee.map (fun v => v * (m : ℚ)) ∧
      (scaleRow m t).nfaFee = t.nfaFee.map (fun v => v * (m : ℚ)) ∧
      (scaleRow m t).entryTime = t.entryTime ∧
      (scaleRow m t).exitTime = t.exitTime ∧
      (scaleRow m t).cumNetProfit = t.cumNetProfit ∧
      (scaleRow m t).marketPos = t.marketPos ∧
      (scaleRow m t).bars = t.bars ∧
      (scaleRow m t).instrument = t.instrument ∧
      (scaleRow m t).contracts = t.contracts) := by
  refine ⟨?_, ?_, ?_, ?_⟩
  · intro df
    simp [apply_contract_multiplier]
  · intro m
    simp [apply_contract_multiplier]
  · intro df m hm
    unfold apply_contract_multiplier
    split
    · rename_i h
      rcases h with h1 | h2
      · exact absurd h1 hm
      · rw [List.length_eq_zero.mp h2]
        rfl
    · rfl
  · intro m t
    refine ⟨rfl, rfl, rfl, rfl, rfl, rfl, rfl, rfl, rfl, rfl, rfl, rfl, rfl, rfl, rfl, rfl⟩

/-- Witness for C6: multiplier 2 doubles the profit of a concrete row. -/
theorem apply_contract_multiplier_behaviour_witness :
    apply_contract_multiplier
      [⟨0, 1, some 5, none, none, none, none, none, none, none, none, none,
        "Long", 3, "ES", 1⟩] 2 =
      [⟨0, 1, some 10, none, none, none, none, none, none, none, none, none,
        "Long", 3, "ES", 1⟩] := by
  rw [apply_contract_multiplier_behaviour.2.2.1 _ 2 (by decide)]
  simp [scaleRow]
  norm_num

/-- C5. Partial-failure isolation of the combiner: an instrument whose
load pipeline raises contributes nothing and the batch result is the one
obtained without it; selecting no instrument yields the empty map and the
empty combined set; and when every selected instrument fails the result is
likewise `([], [])` rather than an error. -/
theorem load_and_process_partial_failure :
    (∀ (pre post : List (String × String)) (name file : String)
      (sel : List String) (filters : List (String × String))
      (contracts : List (String × Int))
      (loadFn : String → Except String (Bool × List PTrade)) (msg : String),
      loadFn file = .error msg →
      load_and_process_trades (pre ++ (name, file) :: post) sel filters contracts loadFn =
        load_and_process_trades (pre ++ post) sel filters contracts loadFn) ∧
    (∀ (instruments : List (String × String)) (filters : List (String × String))
      (contracts : List (String × Int))
      (loadFn : String → Except String (Bool × List PTrade)),
      load_and_process_trades instruments [] filters contracts loadFn = ([], [])) ∧
    (∀ (instruments : List (String × String)) (sel : List String)
      (filters : List (String × String)) (contracts : List (String × Int))
      (loadFn : String → Except String (Bool × List PTrade)),
      (∀ name file, (name, file) ∈ instruments → name ∈ sel →
        ∃ msg, loadFn file = .error msg) →
      load_and_process_trades instruments sel filters contracts loadFn = ([], [])) := by
  refine ⟨?_, ?_, ?_⟩
  · intro pre post name file sel filters contracts loadFn msg herr
    unfold load_and_process_trades
    rw [List.foldl_append, List.foldl_cons]
    have hstep : combineStep loadFn sel filters contracts
        (List.foldl (combineStep loadFn sel filters contracts) ([], []) pre)
        (name, file) =
        List.foldl (combineStep loadFn sel filters contracts) ([], []) pre := by
      unfold combineStep
      split
      · unfold processInstrument
        rw [herr]
      · rfl
    rw [hstep, ← List.foldl_append]
  · intro instruments filters contracts loadFn
    unfold load_and_process_trades
    rw [foldl_eq_init _ _ _ (fun b' a _ => by
      unfold combineStep
      rw [if_neg (List.not_mem_nil a.1)])]
    rfl
  · intro instruments sel filters contracts loadFn hall
    have hfix : ∀ (b' : List (List PTrade) × List (String × InstrResult))
        (a : String × String), a ∈ instruments →
        combineStep loadFn sel filters contracts b' a = b' := by
      intro b' a ha
      unfold combineStep
      split
      · rename_i hsel
        obtain ⟨msg, hmsg⟩ := hall a.1 a.2 (by simpa using ha) hsel
        unfold processInstrument
        rw [hmsg]
      · rfl
    unfold load_and_process_trades
    rw [foldl_eq_init _ _ _ hfix]
    rfl

/-- Witness for C5: a single selected instrument whose loader fails yields
the same empty batch as no instrument at all. -/
theorem load_and_process_partial_failure_witness :
    load_and_process_trades [("ES", "es.csv")] ["ES"] [] []
      (fun _ => .error "file not found") =
      load_and_process_trades [] ["ES"] [] [] (fun _ => .error "file not found") :=
  load_and_process_partial_failure.1 [] [] "ES" "es.csv" ["ES"] [] []
    (fun _ => .error "file not found") "file not found" rfl

/-- C7. `load_and_filter_trades` keeps exactly the rows whose entry time
lies in the half-open interval `[start, end + 1 day)` — the end bound gains
one day whether the dates arrive parsed or as `dd/mm/yyyy` strings — and
returns them sorted ascending by entry time. -/
theorem load_and_filter_interval_and_sort :
    ∀ (rows : List PTrade) (start_date end_date : DateArg),
      (load_and_filter_trades rows start_date end_date).Perm
        (rows.filter fun t =>
          decide (start_date.value ≤ t.entryTime ∧
            t.entryTime < end_date.value + daySecs)) ∧
      (load_and_filter_trades rows start_date end_date).Pairwise
        (fun a b => a.entryTime ≤ b.entryTime) := by
  intro rows s e
  have key : load_and_filter_trades rows s e =
      (rows.filter fun t =>
        decide (DateArg.value s ≤ t.entryTime) &&
          decide (t.entryTime < DateArg.value e + daySecs)).mergeSort
        (fun a b => a.entryTime ≤ b.entryTime) := by
    cases s <;> cases e <;> rfl
  rw [key]
  constructor
  · refine (List.mergeSort_perm _ _).trans ?_
    have hf : (rows.filter fun t =>
        decide (DateArg.value s ≤ t.entryTime) &&
          decide (t.entryTime < DateArg.value e + daySecs)) =
        (rows.filter fun t =>
          decide (DateArg.value s ≤ t.entryTime ∧
            t.entryTime < DateArg.value e + daySecs)) := by
      refine List.filter_congr ?_
      intro a _
      simp
    rw [hf]
  · have h := @List.sorted_mergeSort PTrade
      (fun a b : PTrade => decide (a.entryTime ≤ b.entryTime))
      (fun a b c h1 h2 => by
        simp only [decide_eq_true_eq] at *
        omega)
      (fun a b => by
        simp only [Bool.or_eq_true, decide_eq_true_eq]
        omega)
      (rows.filter fun t =>
        decide (DateArg.value s ≤ t.entryTime) &&
          decide (t.entryTime < DateArg.value e + daySecs))
    exact h.imp fun hab => by simpa using hab

/-- Merging two start-sorted intervals: the source extends only on strict
overlap, so touching intervals stay separate. -/
theorem mergeIntervals_pair (a b c d : Int) (h : a ≤ c) :
    mergeIntervals [(a, b), (c, d)] =
      if c < b then [(a, max b d)] else [(a, b), (c, d)] := by
  have hsort : ([((a : Int), b), (c, d)]).mergeSort (fun x y => x.1 ≤ y.1) =
      [(a, b), (c, d)] :=
    List.mergeSort_of_sorted (by simp [List.pairwise_cons]; exact h)
  unfold mergeIntervals
  rw [hsort]
  unfold mergeLoop
  split
  · rfl
  · rfl

/-- Counterexample to C1 as stated: the claim's merge rule extends the
current interval when the next starts before *or at* its end, but on the
touching intervals `(0,1)` and `(1,2)` the source keeps two intervals
where that rule produces one. -/
theorem merge_rule_counterexample :
    mergeIntervals [((0 : Int), (1 : Int)), (1, 2)] ≠
      mergeIntervalsSpec [((0 : Int), (1 : Int)), (1, 2)] := by
  have hsort : ([((0 : Int), (1 : Int)), (1, 2)]).mergeSort
      (fun x y => x.1 ≤ y.1) = [((0 : Int), (1 : Int)), (1, 2)] :=
    List.mergeSort_of_sorted (by decide)
  unfold mergeIntervals mergeIntervalsSpec
  rw [hsort]
  decide

/-- C1 amended: the intervals are merged by sorting on start and extending
the current interval's end exactly when the next interval starts strictly
before that end (an interval starting at the current end opens a new merged
interval, recording a zero-length gap); on two trades whose second entry is
exactly 2 days after the first exit the maximum flat period is exactly
2 days. -/
theorem flat_period_strict_merge_and_two_day_gap :
    (∀ a b c d : Int, a ≤ c →
      mergeIntervals [(a, b), (c, d)] =
        if c < b then [(a, max b d)] else [(a, b), (c, d)]) ∧
    (∀ (e1 x1 x2 : Int) (p1 p2 b1 b2 : ℚ) (i1 i2 : String) (q1 q2 : ℚ),
      e1 ≤ x1 → x1 + 2 * daySecs ≤ x2 →
      (calculate_recovery_and_flat_periods
        [⟨e1, x1, p1, b1, i1⟩, ⟨x1 + 2 * daySecs, x2, p2, b2, i2⟩]
        [q1, q2]).2.1 = 2 * daySecs) := by
  have hday : (0 : Int) < daySecs := by decide
  constructor
  · exact fun a b c d h => mergeIntervals_pair a b c d h
  · intro e1 x1 x2 p1 p2 b1 b2 i1 i2 q1 q2 h1 h2
    have hm : mergeIntervals [(e1, x1), (x1 + 2 * daySecs, x2)] =
        [(e1, x1), (x1 + 2 * daySecs, x2)] := by
      rw [mergeIntervals_pair _ _ _ _ (by omega)]
      rw [if_neg (by omega)]
    unfold calculate_recovery_and_flat_periods
    rw [if_neg (by simp)]
    simp only [List.map_cons, List.map_nil, hm, flatGaps, listMaxI,
      List.length_cons, List.length_nil, List.foldl]
    omega

/-- Witness for C1 amended: concrete two-trade set with a 2-day gap. -/
theorem flat_period_two_day_gap_witness :
    (calculate_recovery_and_flat_periods
      [⟨0, 3600, 5, 1, "ES"⟩, ⟨3600 + 2 * daySecs, 3600 + 2 * daySecs + 600, -2, 1, "ES"⟩]
      [5, 3]).2.1 = 2 * daySecs :=
  flat_period_strict_merge_and_two_day_gap.2 0 3600 (3600 + 2 * daySecs + 600)
    5 (-2) 1 1 "ES" "ES" 5 3 (by decide) (by decide)

/-- Case split for the reported profit factor: the exact ratio when the
gross loss is nonzero, and 0 whenever the gross loss is zero (the infinite
value of an all-win set is suppressed on display). -/
theorem profit_factor_reported_cases (gp gl : ℚ) :
    (gl ≠ 0 → profit_factor_reported gp gl = |gp / gl|) ∧
    (gl = 0 → profit_factor_reported gp gl = 0) := by
  constructor
  · intro h
    simp [profit_factor_reported, profit_factor_raw, h]
  · intro h
    subst h
    unfold profit_factor_reported profit_factor_raw
    simp only [ne_eq, not_true_eq_false, if_false]
    by_cases hgp : 0 < gp
    · rw [if_pos hgp]
    · rw [if_neg hgp]

/-- A day-of-week row's profit factor is the reported profit factor of its
own gross profit and gross loss. -/
theorem dayRow_profit_factor (df : List MRow) (d : Nat) (row : DayRow)
    (h : dayRowFor df d = some row) :
    row.profit_factor = profit_factor_reported row.gross_profit row.gross_loss := by
  unfold dayRowFor at h
  dsimp only at h
  split at h
  · exact Option.noConfusion h
  · cases h
    rfl

/-- The stats record's profit factor is the reported profit factor of its
own gross profit and gross loss. -/
theorem comprehensive_profit_factor (r : MRow) (rs : List MRow) (name : String)
    (s : Stats) (h : (calculate_comprehensive_stats (r :: rs) name).1 = some s) :
    s.profit_factor = profit_factor_reported s.gross_profit s.gross_loss := by
  have h2 := Option.some.inj h
  subst h2
  rfl

/-- C2. The reported profit factor is `|gross_profit / gross_loss|` when
the gross loss is nonzero (`300 / -100` gives 3), is 0 when the gross loss
is zero and the gross profit is nonpositive, and is suppressed to 0 when
the gross loss is zero and the gross profit is positive; the same rule
holds for every row of the day-of-week breakdown. -/
theorem profit_factor_rule :
    (∀ (r : MRow) (rs : List MRow) (name : String) (s : Stats),
      (calculate_comprehensive_stats (r :: rs) name).1 = some s →
      (s.gross_loss ≠ 0 → s.profit_factor = |s.gross_profit / s.gross_loss|) ∧
      (s.gross_loss = 0 → s.gross_profit ≤ 0 → s.profit_factor = 0) ∧
      (s.gross_loss = 0 → 0 < s.gross_profit → s.profit_factor = 0)) ∧
    (∀ (df : List MRow) (row : DayRow), row ∈ calculate_day_of_week_stats df →
      (row.gross_loss ≠ 0 → row.profit_factor = |row.gross_profit / row.gross_loss|) ∧
      (row.gross_loss = 0 → row.profit_factor = 0)) ∧
    ((calculate_comprehensive_stats
        [⟨0, 60, 300, 1, "ES"⟩, ⟨100, 160, -100, 1, "ES"⟩] "").1.map
      (fun s => (s.gross_profit, s.gross_loss, s.profit_factor)) =
      some (300, -100, 3)) := by
  refine ⟨?_, ?_, ?_⟩
  · intro r rs name s h
    have hpf := comprehensive_profit_factor r rs name s h
    refine ⟨fun hgl => ?_, fun hgl _ => ?_, fun hgl _ => ?_⟩
    · rw [hpf, (profit_factor_reported_cases _ _).1 hgl]
    · rw [hpf, (profit_factor_reported_cases _ _).2 hgl]
    · rw [hpf, (profit_factor_reported_cases _ _).2 hgl]
  · intro df row hrow
    unfold calculate_day_of_week_stats at hrow
    split at hrow
    · exact absurd hrow (List.not_mem_nil row)
    · rw [List.mem_mergeSort, List.mem_filterMap] at hrow
      obtain ⟨d, _, hd⟩ := hrow
      have hpf := dayRow_profit_factor df d row hd
      refine ⟨fun hgl => ?_, fun hgl => ?_⟩
      · rw [hpf, (profit_factor_reported_cases _ _).1 hgl]
      · rw [hpf, (profit_factor_reported_cases _ _).2 hgl]
  · norm_num [calculate_comprehensive_stats, profit_factor_reported,
      profit_factor_raw, listMean]

/-- Witness for C2: concrete profit factors — 3 for profits `[300, -100]`
and 0 for the all-win set `[5]` (suppressed infinity). -/
theorem profit_factor_rule_witness :
    ∃ s : Stats, (calculate_comprehensive_stats
        [⟨0, 60, 300, 1, "ES"⟩, ⟨100, 160, -100, 1, "ES"⟩] "").1 = some s ∧
      s.profit_factor = |s.gross_profit / s.gross_loss| := by
  refine ⟨_, rfl, ?_⟩
  exact ((profit_factor_rule.1 ⟨0, 60, 300, 1, "ES"⟩ [⟨100, 160, -100, 1, "ES"⟩]
    "" _ rfl).1 (by norm_num))

/-- A day-of-week row produced for bucket `d` carries weekday `d`. -/
theorem dayRowFor_day (df : List MRow) (d : Nat) (row : DayRow)
    (h : dayRowFor df d = some row) : row.dayOfWeek = (d : Int) := by
  unfold dayRowFor at h
  dsimp only at h
  split at h
  · exact Option.noConfusion h
  · cases h
    rfl

/-- A day-of-week row is only produced when its bucket holds a trade. -/
theorem dayRowFor_mem (df : List MRow) (d : Nat) (row : DayRow)
    (h : dayRowFor df d = some row) :
    ∃ t ∈ df, dayOfWeekOf t.entryTime = (d : Int) := by
  unfold dayRowFor at h
  dsimp only at h
  split at h
  · exact Option.noConfusion h
  · rename_i hne
    have hnil : df.filter (fun t => dayOfWeekOf t.entryTime == (d : Int)) ≠ [] := by
      intro hnil
      exact hne (by rw [hnil]; rfl)
    obtain ⟨t, ht⟩ := List.exists_mem_of_ne_nil _ hnil
    have hm := List.mem_filter.mp ht
    exact ⟨t, hm.1, by simpa using hm.2⟩

/-- A weekday bucket holding a trade always yields a row. -/
theorem dayRowFor_isSome (df : List MRow) (d : Nat)
    (h : ∃ t ∈ df, dayOfWeekOf t.entryTime = (d : Int)) :
    ∃ row, dayRowFor df d = some row := by
  obtain ⟨t, htdf, htd⟩ := h
  unfold dayRowFor
  dsimp only
  split
  · rename_i hlen
    exfalso
    have hmem : t ∈ df.filter (fun u => dayOfWeekOf u.entryTime == (d : Int)) :=
      List.mem_filter.mpr ⟨htdf, by simpa using htd⟩
    rw [List.length_eq_zero.mp hlen] at hmem
    exact absurd hmem (List.not_mem_nil t)
  · exact ⟨_, rfl⟩

/-- On a nonempty frame the day-of-week table is exactly the filterMap of
the weekday loop: the rows are already in strictly increasing weekday
order, so the final `sort_values` leaves them in place. -/
theorem day_of_week_stats_eq_filterMap (df : List MRow) (hdf : df.length ≠ 0) :
    calculate_day_of_week_stats df = (List.range 7).filterMap (dayRowFor df) ∧
    ((List.range 7).filterMap (dayRowFor df)).Pairwise
      (fun a b => a.dayOfWeek < b.dayOfWeek) := by
  have hpair : ((List.range 7).filterMap (dayRowFor df)).Pairwise
      (fun a b => a.dayOfWeek < b.dayOfWeek) := by
    refine List.Pairwise.filterMap (dayRowFor df) ?_ (List.pairwise_lt_range 7)
    intro a b hab x hx y hy
    have hxa := dayRowFor_day df a x (by simpa using hx)
    have hyb := dayRowFor_day df b y (by simpa using hy)
    rw [hxa, hyb]
    exact_mod_cast hab
  refine ⟨?_, hpair⟩
  unfold calculate_day_of_week_stats
  rw [if_neg hdf]
  exact List.mergeSort_of_sorted
    (hpair.imp fun h => by simpa using le_of_lt h)

/-- C9. The day-of-week breakdown emits a row exactly for the weekdays
holding at least one trade — a weekday with no trade yields no row, a
weekday with a trade always appears — and the rows are in strictly
increasing weekday order, i.e. Monday through Sunday. -/
theorem day_of_week_rows_nonempty_and_ordered :
    ∀ df : List MRow,
      (∀ row ∈ calculate_day_of_week_stats df,
        ∃ t ∈ df, dayOfWeekOf t.entryTime = row.dayOfWeek) ∧
      (∀ d : Nat, d < 7 → (∃ t ∈ df, dayOfWeekOf t.entryTime = (d : Int)) →
        ∃ row ∈ calculate_day_of_week_stats df, row.dayOfWeek = (d : Int)) ∧
      (calculate_day_of_week_stats df).Pairwise
        (fun a b => a.dayOfWeek < b.dayOfWeek) := by
  intro df
  by_cases hdf : df.length = 0
  · have hnil : calculate_day_of_week_stats df = [] := by
      unfold calculate_day_of_week_stats
      rw [if_pos hdf]
    rw [hnil]
    refine ⟨fun row hrow => absurd hrow (List.not_mem_nil row),
      fun d _ hex => ?_, List.Pairwise.nil⟩
    obtain ⟨t, ht, _⟩ := hex
    rw [List.length_eq_zero.mp hdf] at ht
    exact absurd ht (List.not_mem_nil t)
  · obtain ⟨hkey, hpair⟩ := day_of_week_stats_eq_filterMap df hdf
    rw [hkey]
    refine ⟨?_, ?_, hpair⟩
    · intro row hrow
      obtain ⟨d, _, hd⟩ := List.mem_filterMap.mp hrow
      obtain ⟨t, htdf, htd⟩ := dayRowFor_mem df d row hd
      exact ⟨t, htdf, by rw [htd, dayRowFor_day df d row hd]⟩
    · intro d hd7 hex
      obtain ⟨row, hrow⟩ := dayRowFor_isSome df d hex
      exact ⟨row, List.mem_filterMap.mpr ⟨d, List.mem_range.mpr hd7, hrow⟩,
        dayRowFor_day df d row hrow⟩

/-- Witness for C9: a single Monday trade yields a Monday row. -/
theorem day_of_week_rows_witness :
    ∃ row ∈ calculate_day_of_week_stats [⟨4 * daySecs, 4 * daySecs + 60, 5, 1, "ES"⟩],
      row.dayOfWeek = ((0 : Nat) : Int) :=
  (day_of_week_rows_nonempty_and_ordered
    [⟨4 * daySecs, 4 * daySecs + 60, 5, 1, "ES"⟩]).2.1 0 (by decide)
    ⟨⟨4 * daySecs, 4 * daySecs + 60, 5, 1, "ES"⟩, List.mem_singleton.mpr rfl,
      by decide⟩

/-- Proof device for the streak counter: the largest streak value the loop
still observes when it starts with a running counter `c`. -/
def streakFrom (d : Int) (c : Nat) : List ℚ → Nat
  | [] => 0
  | p :: ps =>
    if matchDir d p then max (c + 1) (streakFrom d (c + 1) ps)
    else streakFrom d 0 ps

/-- The first component of the streak loop is the seed maximum joined with
the streaks still to be observed. -/
theorem calcConsecAux_fst (d : Int) (l : List ℚ) :
    ∀ m c, (calcConsecAux d (m, c) l).1 = max m (streakFrom d c l) := by
  induction l with
  | nil => intro m c; simp [calcConsecAux, streakFrom]
  | cons p ps ih =>
    intro m c
    by_cases hm : matchDir d p
    · rw [calcConsecAux, if_pos hm, streakFrom, if_pos hm, ih]
      dsimp only
      omega
    · rw [calcConsecAux, if_neg hm, streakFrom, if_neg hm, ih]

/-- The maximal matching prefix is one of the contiguous runs. -/
theorem prefRun_le_maxRun (d : Int) (l : List ℚ) : prefRun d l ≤ maxRun d l := by
  induction l with
  | nil => exact Nat.le_refl 0
  | cons p ps ih =>
    by_cases hm : matchDir d p
    · rw [prefRun, if_pos hm, maxRun, if_pos hm]
      omega
    · rw [prefRun, if_neg hm, maxRun, if_neg hm]
      exact Nat.zero_le _

/-- Characterization of `streakFrom` by the prefix run and the longest
run. -/
theorem streakFrom_eq (d : Int) (l : List ℚ) :
    ∀ c, streakFrom d c l =
      max (if prefRun d l = 0 then 0 else c + prefRun d l) (maxRun d l) := by
  induction l with
  | nil => intro c; simp [streakFrom, prefRun, maxRun]
  | cons p ps ih =>
    intro c
    by_cases hm : matchDir d p
    · rw [streakFrom, if_pos hm, prefRun, if_pos hm, maxRun, if_pos hm, ih]
      have hle := prefRun_le_maxRun d ps
      by_cases hz : prefRun d ps = 0 <;> simp [hz] <;> omega
    · rw [streakFrom, if_neg hm, prefRun, if_neg hm, maxRun, if_neg hm, ih]
      have hle := prefRun_le_maxRun d ps
      by_cases hz : prefRun d ps = 0 <;> simp [hz] <;> omega

/-- The streak counter computes the longest contiguous matching run. -/
theorem calculate_max_consecutive_eq_maxRun (l : List ℚ) (d : Int) :
    calculate_max_consecutive l d = maxRun d l := by
  cases l with
  | nil => rfl
  | cons p ps =>
    rw [calculate_max_consecutive, if_neg (by simp), calcConsecAux_fst,
      streakFrom_eq]
    have hle := prefRun_le_maxRun d (p :: ps)
    by_cases hz : prefRun d (p :: ps) = 0 <;> simp [hz] <;> omega

/-- The maximal matching prefix does match, entirely. -/
theorem prefRun_take_all (d : Int) (l : List ℚ) :
    prefRun d l ≤ l.length ∧ (l.take (prefRun d l)).all (matchDir d) = true := by
  induction l with
  | nil => exact ⟨Nat.le_refl 0, rfl⟩
  | cons p ps ih =>
    by_cases hm : matchDir d p
    · rw [prefRun, if_pos hm]
      refine ⟨by simpa using ih.1, ?_⟩
      rw [List.take_succ_cons, List.all_cons, hm, Bool.true_and]
      exact ih.2
    · rw [prefRun, if_neg hm]
      exact ⟨Nat.zero_le _, rfl⟩

/-- Any matching prefix is no longer than the maximal one. -/
theorem prefRun_ge (d : Int) (l : List ℚ) :
    ∀ k, k ≤ l.length → (l.take k).all (matchDir d) = true → k ≤ prefRun d l := by
  induction l with
  | nil =>
    intro k hk _
    simp only [List.length_nil, Nat.le_zero] at hk
    simp [prefRun, hk]
  | cons p ps ih =>
    intro k hk hall
    cases k with
    | zero => exact Nat.zero_le _
    | succ k' =>
      rw [List.take_succ_cons, List.all_cons, Bool.and_eq_true] at hall
      rw [prefRun, if_pos hall.1]
      have := ih k' (by simpa using hk) hall.2
      omega

/-- The longest run never shrinks when an element is prepended. -/
theorem maxRun_cons_le (d : Int) (p : ℚ) (ps : List ℚ) :
    maxRun d ps ≤ maxRun d (p :: ps) := by
  by_cases hm : matchDir d p
  · rw [maxRun, if_pos hm]; omega
  · rw [maxRun, if_neg hm]

/-- A contiguous block of the longest-run length exists. -/
theorem maxRun_exists (d : Int) (l : List ℚ) :
    ∃ i, i + maxRun d l ≤ l.length ∧
      ((l.drop i).take (maxRun d l)).all (matchDir d) = true := by
  induction l with
  | nil => exact ⟨0, Nat.le_refl 0, rfl⟩
  | cons p ps ih =>
    by_cases hm : matchDir d p
    · rw [maxRun, if_pos hm]
      rcases Nat.le_total (maxRun d ps) (prefRun d ps + 1) with hcase | hcase
      · refine ⟨0, ?_, ?_⟩
        · have := (prefRun_take_all d ps).1
          simp only [List.length_cons]
          omega
        · rw [Nat.max_eq_left hcase, List.drop_zero, List.take_succ_cons,
            List.all_cons, hm, Bool.true_and]
          exact (prefRun_take_all d ps).2
      · obtain ⟨i, hi1, hi2⟩ := ih
        refine ⟨i + 1, ?_, ?_⟩
        · simp only [List.length_cons]
          omega
        · rw [Nat.max_eq_right hcase, List.drop_succ_cons]
          exact hi2
    · rw [maxRun, if_neg hm]
      obtain ⟨i, hi1, hi2⟩ := ih
      exact ⟨i + 1, by simp only [List.length_cons]; omega,
        by rw [List.drop_succ_cons]; exact hi2⟩

/-- Every contiguous matching block is bounded by the longest run. -/
theorem maxRun_ub (d : Int) (l : List ℚ) :
    ∀ i k, i + k ≤ l.length → ((l.drop i).take k).all (matchDir d) = true →
      k ≤ maxRun d l := by
  induction l with
  | nil =>
    intro i k hk _
    simp only [List.length_nil] at hk
    have hz : k = 0 := by omega
    exact hz ▸ Nat.zero_le _
  | cons p ps ih =>
    intro i k hk hall
    cases i with
    | zero =>
      cases k with
      | zero => exact Nat.zero_le _
      | succ k' =>
        rw [List.drop_zero, List.take_succ_cons, List.all_cons,
          Bool.and_eq_true] at hall
        rw [maxRun, if_pos hall.1]
        have hk' : k' ≤ prefRun d ps :=
          prefRun_ge d ps k' (by simpa using hk) hall.2
        omega
    | succ i' =>
      rw [List.drop_succ_cons] at hall
      have := ih i' k (by simp only [List.length_cons] at hk; omega) hall
      have := maxRun_cons_le d p ps
      omega

/-- C3. The streak counter behaves as the single-pass maximum-counter
description demands: its result is the length of some contiguous block of
trades matching the requested direction and bounds the length of every
such block; on `[5, -3, 2, 2, 2, -1]` it yields 3 consecutive winners and
1 consecutive loser. -/
theorem max_consecutive_longest_run :
    (∀ (profits : List ℚ) (d : Int),
      (∃ i, i + calculate_max_consecutive profits d ≤ profits.length ∧
        ((profits.drop i).take (calculate_max_consecutive profits d)).all
          (matchDir d) = true) ∧
      (∀ i k, i + k ≤ profits.length →
        ((profits.drop i).take k).all (matchDir d) = true →
        k ≤ calculate_max_consecutive profits d)) ∧
    calculate_max_consecutive [5, -3, 2, 2, 2, -1] 1 = 3 ∧
    calculate_max_consecutive [5, -3, 2, 2, 2, -1] (-1) = 1 := by
  refine ⟨fun profits d => ?_, by decide, by decide⟩
  rw [calculate_max_consecutive_eq_maxRun]
  exact ⟨maxRun_exists d profits, maxRun_ub d profits⟩

/-- Witness for C3: the two-win streak of `[1, 1]` is certified through
the theorem's bound at a concrete block. -/
theorem max_consecutive_longest_run_witness :
    2 ≤ calculate_max_consecutive [1, 1] 1 :=
  (max_consecutive_longest_run.1 [1, 1] 1).2 0 2 (by decide) (by decide)

/-- The seed never exceeds a left fold of `max`. -/
theorem le_foldl_max (l : List ℚ) (b : ℚ) : b ≤ l.foldl max b := by
  induction l generalizing b with
  | nil => exact le_refl b
  | cons x xs ih => exact le_trans (le_max_left b x) (ih (max b x))

/-- Every member is bounded by a left fold of `max`. -/
theorem foldl_max_le_of_mem (l : List ℚ) (b x : ℚ) (hx : x ∈ l) :
    x ≤ l.foldl max b := by
  induction l generalizing b with
  | nil => exact absurd hx (List.not_mem_nil x)
  | cons y ys ih =>
    rcases List.mem_cons.mp hx with hxy | hxys
    · subst hxy
      exact le_trans (le_max_right b x) (le_foldl_max ys (max b x))
    · exact ih (max b y) hxys

/-- A left fold of `max` is the seed or some member. -/
theorem foldl_max_cases (l : List ℚ) (b : ℚ) :
    l.foldl max b = b ∨ l.foldl max b ∈ l := by
  induction l generalizing b with
  | nil => exact Or.inl rfl
  | cons y ys ih =>
    rcases ih (max b y) with hc | hc
    · rw [List.foldl_cons, hc]
      rcases max_choice b y with hb | hy
      · exact Or.inl hb
      · exact Or.inr (by rw [hy]; exact List.mem_cons_self y ys)
    · exact Or.inr (List.mem_cons_of_mem y hc)

/-- `runMaxFrom` preserves length. -/
theorem runMaxFrom_length (l : List ℚ) : ∀ m, (runMaxFrom m l).length = l.length := by
  induction l with
  | nil => intro m; rfl
  | cons x xs ih => intro m; simp [runMaxFrom, ih]

/-- The running maximum preserves length. -/
theorem runningMax_length (l : List ℚ) : (runningMax l).length = l.length := by
  cases l with
  | nil => rfl
  | cons x xs => simp [runningMax, runMaxFrom_length]

/-- Element `i` of `runMaxFrom` is the fold of the first `i + 1` elements
onto the seed. -/
theorem runMaxFrom_get (l : List ℚ) :
    ∀ (m : ℚ) (i : Nat) (h : i < (runMaxFrom m l).length),
      (runMaxFrom m l).get ⟨i, h⟩ = (l.take (i + 1)).foldl max m := by
  induction l with
  | nil => intro m i h; exact absurd h (by simp [runMaxFrom])
  | cons x xs ih =>
    intro m i h
    cases i with
    | zero => simp [runMaxFrom]
    | succ i' =>
      have h' : i' < (runMaxFrom (max m x) xs).length := by
        simpa [runMaxFrom] using h
      have := ih (max m x) i' h'
      simpa [runMaxFrom, List.take_succ_cons] using this

/-- Element `i` of the running maximum of `x :: xs` is the maximum of `x`
and the first `i` elements of `xs`. -/
theorem runningMax_get (x : ℚ) (xs : List ℚ) (i : Nat)
    (h : i < (runningMax (x :: xs)).length) :
    (runningMax (x :: xs)).get ⟨i, h⟩ = (xs.take i).foldl max x := by
  cases i with
  | zero => simp [runningMax]
  | succ i' =>
    have h' : i' < (runMaxFrom x xs).length := by
      simpa [runningMax] using h
    have := runMaxFrom_get xs x i' h'
    simpa [runningMax] using this

/-- `cumsumFrom` preserves length. -/
theorem cumsumFrom_length (l : List ℚ) : ∀ acc, (cumsumFrom acc l).length = l.length := by
  induction l with
  | nil => intro acc; rfl
  | cons p ps ih => intro acc; simp [cumsumFrom, ih]

/-- The cumulative sum preserves length. -/
theorem cumsum_length (l : List ℚ) : (cumsum l).length = l.length :=
  cumsumFrom_length l 0

/-- Element `i` of `cumsumFrom` is the seed plus the sum of the first
`i + 1` elements. -/
theorem cumsumFrom_get (l : List ℚ) :
    ∀ (acc : ℚ) (i : Nat) (h : i < (cumsumFrom acc l).length),
      (cumsumFrom acc l).get ⟨i, h⟩ = acc + (l.take (i + 1)).sum := by
  induction l with
  | nil => intro acc i h; exact absurd h (by simp [cumsumFrom])
  | cons p ps ih =>
    intro acc i h
    cases i with
    | zero => simp [cumsumFrom]
    | succ i' =>
      have h' : i' < (cumsumFrom (acc + p) ps).length := by
        simpa [cumsumFrom] using h
      have := ih (acc + p) i' h'
      rw [List.take_succ_cons, List.sum_cons]
      simpa [cumsumFrom, add_assoc] using this

/-- Element `i` of the equity curve is the prefix sum of the first `i + 1`
profits. -/
theorem cumsum_get (l : List ℚ) (i : Nat) (h : i < (cumsum l).length) :
    (cumsum l).get ⟨i, h⟩ = (l.take (i + 1)).sum := by
  have := cumsumFrom_get l 0 i h
  simpa using this

/-- The drawdown series has the equity curve's length. -/
theorem drawdownOf_length (e : List ℚ) : (drawdownOf e).length = e.length := by
  simp [drawdownOf, runningMax_length]

/-- Pointwise behaviour of the drawdown series: every entry is nonpositive,
and an entry is zero exactly when its equity value is a running maximum. -/
theorem drawdownOf_spec (e : List ℚ) (i : Nat)
    (h : i < (drawdownOf e).length) (he : i < e.length) :
    (drawdownOf e).get ⟨i, h⟩ ≤ 0 ∧
    ((drawdownOf e).get ⟨i, h⟩ = 0 ↔
      ∀ (j : Nat) (hj : j < e.length), j ≤ i →
        e.get ⟨j, hj⟩ ≤ e.get ⟨i, he⟩) := by
  cases e with
  | nil => simp at he
  | cons x xs =>
    have hrm : i < (runningMax (x :: xs)).length := by
      rw [runningMax_length]
      exact he
    have hdd : (drawdownOf (x :: xs)).get ⟨i, h⟩ =
        (x :: xs).get ⟨i, he⟩ - (runningMax (x :: xs)).get ⟨i, hrm⟩ := by
      simp only [drawdownOf, List.get_eq_getElem, List.getElem_zipWith]
    have hrmv : (runningMax (x :: xs)).get ⟨i, hrm⟩ = (xs.take i).foldl max x :=
      runningMax_get x xs i hrm
    have hub : ∀ (j : Nat) (hj : j < (x :: xs).length), j ≤ i →
        (x :: xs).get ⟨j, hj⟩ ≤ (xs.take i).foldl max x := by
      intro j hj hji
      cases j with
      | zero => simpa using le_foldl_max (xs.take i) x
      | succ j' =>
        have hj' : j' < xs.length := by simpa using hj
        have hji' : j' < i := by omega
        have htk : j' < (xs.take i).length := by
          rw [List.length_take]
          omega
        have hval : (xs.take i).get ⟨j', htk⟩ = xs.get ⟨j', hj'⟩ := by
          simp [List.getElem_take]
        have hmem : xs.get ⟨j', hj'⟩ ∈ xs.take i := by
          rw [← hval]
          exact List.get_mem _ j' htk
        simpa using foldl_max_le_of_mem (xs.take i) x _ hmem
    have hat : ∃ (j : Nat) (hj : j < (x :: xs).length), j ≤ i ∧
        (xs.take i).foldl max x = (x :: xs).get ⟨j, hj⟩ := by
      rcases foldl_max_cases (xs.take i) x with hc | hc
      · exact ⟨0, by simp, Nat.zero_le _, by simpa using hc⟩
      · obtain ⟨j, hjlt, hjv⟩ := List.getElem_of_mem hc
        have hji : j < i := by
          rw [List.length_take] at hjlt
          omega
        have hjx : j < xs.length := by
          rw [List.length_take] at hjlt
          omega
        refine ⟨j + 1, by simpa using hjx, by omega, ?_⟩
        rw [← hjv]
        simp [List.getElem_take]
    have hkey : (x :: xs).get ⟨i, he⟩ ≤ (xs.take i).foldl max x :=
      hub i he (le_refl i)
    constructor
    · rw [hdd, hrmv]
      linarith
    · rw [hdd, hrmv]
      constructor
      · intro h0 j hj hji
        have hieq : (x :: xs).get ⟨i, he⟩ = (xs.take i).foldl max x := by
          linarith
        rw [hieq]
        exact hub j hj hji
      · intro hall
        obtain ⟨j0, hj0, hj0i, hj0v⟩ := hat
        have h1 : (xs.take i).foldl max x ≤ (x :: xs).get ⟨i, he⟩ := by
          rw [hj0v]
          exact hall j0 hj0 hj0i
        linarith

/-- C4. The equity curve returned by the statistics engine is the exact
prefix sum of the profit column in order, and the drawdown series is
nonpositive everywhere, vanishing exactly at the indices where the equity
value is a running maximum. -/
theorem equity_prefix_sum_drawdown_invariants :
    ∀ (r : MRow) (rs : List MRow) (name : String),
      (calculate_comprehensive_stats (r :: rs) name).2.1.length = (r :: rs).length ∧
      (calculate_comprehensive_stats (r :: rs) name).2.2.length = (r :: rs).length ∧
      (∀ (i : Nat) (h : i < (calculate_comprehensive_stats (r :: rs) name).2.1.length),
        (calculate_comprehensive_stats (r :: rs) name).2.1.get ⟨i, h⟩ =
          (((r :: rs).map (fun t => t.profit)).take (i + 1)).sum) ∧
      (∀ (i : Nat) (h : i < (calculate_comprehensive_stats (r :: rs) name).2.2.length)
        (h2 : i < (calculate_comprehensive_stats (r :: rs) name).2.1.length),
        (calculate_comprehensive_stats (r :: rs) name).2.2.get ⟨i, h⟩ ≤ 0 ∧
        ((calculate_comprehensive_stats (r :: rs) name).2.2.get ⟨i, h⟩ = 0 ↔
          ∀ (j : Nat) (hj : j < (calculate_comprehensive_stats (r :: rs) name).2.1.length),
            j ≤ i →
            (calculate_comprehensive_stats (r :: rs) name).2.1.get ⟨j, hj⟩ ≤
              (calculate_comprehensive_stats (r :: rs) name).2.1.get ⟨i, h2⟩)) := by
  intro r rs name
  have heq : (calculate_comprehensive_stats (r :: rs) name).2.1 =
      cumsum ((r :: rs).map (fun t => t.profit)) := rfl
  have hdd : (calculate_comprehensive_stats (r :: rs) name).2.2 =
      drawdownOf (cumsum ((r :: rs).map (fun t => t.profit))) := rfl
  refine ⟨?_, ?_, ?_, ?_⟩
  · rw [heq, cumsum_length, List.length_map]
  · rw [hdd, drawdownOf_length, cumsum_length, List.length_map]
  · intro i h
    simp only [heq] at h ⊢
    exact cumsum_get _ i h
  · intro i h h2
    simp only [heq, hdd] at h h2 ⊢
    exact drawdownOf_spec (cumsum ((r :: rs).map (fun t => t.profit))) i h h2

/-- Witness for C4: on the concrete profits `[2, -3]` the second drawdown
entry is `-3 ≤ 0`. -/
theorem equity_drawdown_witness :
    (calculate_comprehensive_stats
      [⟨0, 60, 2, 1, "ES"⟩, ⟨100, 160, -3, 1, "ES"⟩] "").2.2.get ⟨1, by decide⟩ ≤ 0 :=
  ((equity_prefix_sum_drawdown_invariants ⟨0, 60, 2, 1, "ES"⟩
    [⟨100, 160, -3, 1, "ES"⟩] "").2.2.2 1 (by decide) (by decide)).1
